import Mathlib

/-!
Verification of the NAU7802 load-cell amplifier driver (`src/NAU7802.cpp`).

Shallow embedding conventions:
* machine integers are modelled as `Nat`/`Int` with explicit `% 2^w` where
  C truncation or wrap-around matters (`uint8_t` assignment, `(int32_t)` cast);
* the I2C transport is modelled by its observable behaviour: block reads by the
  raw return value and the buffer bytes, register reads/writes by a register
  file `Nat → Nat`;
* polling loops that consult the device and the monotonic clock are modelled
  as structural recursion over a trace listing, per loop iteration, what the
  device and the clock return at that iteration.
-/

/-- Conversion of a C `int` value to `uint8_t` (reduction mod 2^8), as in
`uint8_t ret = i2c_smbus_read_i2c_block_data(...)`. `Int.emod` by a positive
modulus is non-negative, matching C's unsigned conversion. -/
def toUInt8 (i : Int) : Nat :=
  (i % 256).toNat

/-- Reinterpretation of a 32-bit unsigned value as a two's-complement `int32_t`,
as in the cast `(int32_t)(valueRaw << 8)`. -/
def toInt32 (n : Nat) : Int :=
  if n % 2 ^ 32 < 2 ^ 31 then ((n % 2 ^ 32 : Nat) : Int)
  else ((n % 2 ^ 32 : Nat) : Int) - 2 ^ 32

/-- The signed two's-complement value denoted by a 24-bit word: words with
bit 23 set denote `w - 2^24`. This is the specification-side notion the
decoder is compared against. -/
def sign24 (w : Nat) : Int :=
  if w < 2 ^ 23 then (w : Int) else (w : Int) - 2 ^ 24

/-- Shallow embedding of `NAU7802::getReading`.

`ret` is the raw `__s32` return of `i2c_smbus_read_i2c_block_data` (the number
of bytes read on success, a negative errno value on failure); `b2 b1 b0` are
the three buffer bytes (big-endian, `data[0] data[1] data[2]`). The source
stores `ret` into a `uint8_t` and decodes the buffer when that truncated value
is `> 1`, otherwise it returns 0. The decode builds a `uint32_t` word from the
bytes, shifts it left by 8, casts to `int32_t` and arithmetic-shifts right by 8
(`>>>` on `Int` is an arithmetic/floor shift, matching the source's
sign-preserving shift of a negative `int32_t`). -/
def getReading (ret : Int) (b2 b1 b0 : Nat) : Int :=
  if 1 < toUInt8 ret then
    let valueRaw : Nat := (((b2 % 256) <<< 16 ||| (b1 % 256) <<< 8) ||| (b0 % 256)) % 2 ^ 32
    let valueShifted : Int := toInt32 (valueRaw <<< 8)
    valueShifted >>> (8 : Nat)
  else
    0

/-- Or-ing the three shifted bytes assembles the 24-bit big-endian word. -/
lemma bytes_lor_eq (b2 b1 b0 : Nat) (h1 : b1 < 256) (h0 : b0 < 256) :
    ((b2 <<< 16 ||| b1 <<< 8) ||| b0) = b2 * 2 ^ 16 + b1 * 2 ^ 8 + b0 := by
  have e1 : b2 <<< 16 ||| b1 <<< 8 = 2 ^ 16 * b2 + 2 ^ 8 * b1 := by
    rw [Nat.shiftLeft_eq, Nat.shiftLeft_eq, Nat.mul_comm b2, Nat.mul_comm b1]
    exact (Nat.mul_add_lt_is_or (by omega) b2).symm
  have e2 : (2 ^ 16 * b2 + 2 ^ 8 * b1) ||| b0 = 2 ^ 8 * (2 ^ 8 * b2 + b1) + b0 := by
    have : 2 ^ 16 * b2 + 2 ^ 8 * b1 = 2 ^ 8 * (2 ^ 8 * b2 + b1) := by ring
    rw [this]
    exact (Nat.mul_add_lt_is_or h0 _).symm
  rw [e1, e2]
  ring

/-- The shift-left-then-arithmetic-shift-right trick sign-extends a 24-bit
word: for any `w < 2^24`, shifting into the top of an `int32_t` and shifting
back yields exactly the two's-complement value of `w`. -/
lemma decode24_eq_sign24 (w : Nat) (hw : w < 2 ^ 24) :
    toInt32 (w <<< 8) >>> (8 : Nat) = sign24 w := by
  have hsr : ∀ m : ℤ, m >>> (8 : ℕ) = m / 256 := by
    intro m
    have h := Int.shiftRight_eq_div_pow m 8
    norm_num at h
    exact h
  rw [Nat.shiftLeft_eq]
  have h32 : w * 2 ^ 8 < 2 ^ 32 := by omega
  unfold toInt32 sign24
  rw [Nat.mod_eq_of_lt h32, hsr]
  split_ifs <;> push_cast <;> omega

/-- C1: for every 3-byte big-endian triple successfully read (block read
returns byte count 3), `getReading` decodes the 24-bit word
`b2*2^16 + b1*2^8 + b0` as its signed two's-complement value; in particular
the triples encoding +1, -1, +8388607 and -8388608 decode to exactly those
values. -/
theorem getReading_sign_extension_c1 :
    (∀ b2 b1 b0 : Nat, b2 < 256 → b1 < 256 → b0 < 256 →
      getReading 3 b2 b1 b0 = sign24 (b2 * 2 ^ 16 + b1 * 2 ^ 8 + b0)) ∧
    getReading 3 0 0 1 = 1 ∧
    getReading 3 255 255 255 = -1 ∧
    getReading 3 127 255 255 = 8388607 ∧
    getReading 3 128 0 0 = -8388608 := by
  refine ⟨?_, by decide, by decide, by decide, by decide⟩
  intro b2 b1 b0 h2 h1 h0
  have hword : b2 * 2 ^ 16 + b1 * 2 ^ 8 + b0 < 2 ^ 24 := by omega
  have hcond : (1 : Nat) < toUInt8 3 := by decide
  simp only [getReading, if_pos hcond, Nat.mod_eq_of_lt h2, Nat.mod_eq_of_lt h1,
    Nat.mod_eq_of_lt h0, bytes_lor_eq b2 b1 b0 h1 h0]
  rw [Nat.mod_eq_of_lt (by omega : b2 * 2 ^ 16 + b1 * 2 ^ 8 + b0 < 2 ^ 32)]
  exact decode24_eq_sign24 _ hword

/-- Witness for C1 at the concrete triple (1, 2, 3). -/
theorem getReading_sign_extension_c1_witness :
    getReading 3 1 2 3 = sign24 (1 * 2 ^ 16 + 2 * 2 ^ 8 + 3) :=
  getReading_sign_extension_c1.1 1 2 3 (by decide) (by decide) (by decide)

/-- C2 (code bug): when the block read fails, `i2c_smbus_read_i2c_block_data`
returns a negative errno value, but the source stores it into `uint8_t ret`,
so e.g. -1 becomes 255 and -121 (-EREMOTEIO, a typical I2C failure) becomes
135; both pass the `ret > 1` "success" test and the stale buffer is decoded
instead of returning the error sentinel 0. With buffer bytes (0,0,5) the call
returns 5, not 0. -/
theorem getReading_error_not_zero_c2 :
    getReading (-1) 0 0 5 = 5 ∧ getReading (-121) 0 0 5 = 5 := by
  constructor <;> decide

/-- The device register file as observed over I2C: a map from register address
to byte value. Claims about the bit operations assume the underlying byte read
and write succeed, so the transport is modelled by this map directly. -/
abbrev Regs := Nat → Nat

/-- `NAU7802::getRegister` on a successful read: returns the register byte. -/
def getRegister (regs : Regs) (registerAddress : Nat) : Nat :=
  regs registerAddress

/-- `NAU7802::setRegister` on a successful write: stores the byte (truncated
to `uint8_t`) at the given address. -/
def setRegister (regs : Regs) (registerAddress value : Nat) : Regs :=
  fun a => if a = registerAddress then value % 256 else regs a

/-- The byte computed by `NAU7802::setBit`: `value |= (1 << bitNumber)`,
assigned back into a `uint8_t`. -/
def setBitValue (bitNumber value : Nat) : Nat :=
  (value ||| 1 <<< bitNumber) % 256

/-- The byte computed by `NAU7802::clearBit`: `value &= ~(1 << bitNumber)`,
where `~` complements the 32-bit `int`, i.e. XORs with the all-ones pattern. -/
def clearBitValue (bitNumber value : Nat) : Nat :=
  (value &&& ((2 ^ 32 - 1) ^^^ 1 <<< bitNumber)) % 256

/-- The boolean computed by `NAU7802::getBit`: `value &= (1 << bitNumber)`,
assigned into a `uint8_t`, then returned as a nonzero test. -/
def getBitValue (bitNumber value : Nat) : Bool :=
  (value &&& 1 <<< bitNumber) % 256 != 0

/-- `NAU7802::setBit`: read-modify-write of one register. -/
def setBit (bitNumber registerAddress : Nat) (regs : Regs) : Regs :=
  setRegister regs registerAddress (setBitValue bitNumber (getRegister regs registerAddress))

/-- `NAU7802::clearBit`: read-modify-write of one register. -/
def clearBit (bitNumber registerAddress : Nat) (regs : Regs) : Regs :=
  setRegister regs registerAddress (clearBitValue bitNumber (getRegister regs registerAddress))

/-- `NAU7802::getBit`: read one register and test one bit. -/
def getBit (bitNumber registerAddress : Nat) (regs : Regs) : Bool :=
  getBitValue bitNumber (getRegister regs registerAddress)

lemma setBitValue_lt (bitNumber value : Nat) : setBitValue bitNumber value < 256 :=
  Nat.mod_lt _ (by omega)

lemma clearBitValue_lt (bitNumber value : Nat) : clearBitValue bitNumber value < 256 :=
  Nat.mod_lt _ (by omega)

lemma testBit_byte_high {x i : Nat} (hx : x < 256) (hi : 8 ≤ i) : x.testBit i = false := by
  apply Nat.testBit_lt_two_pow
  have h : (2 : ℕ) ^ 8 ≤ 2 ^ i := Nat.pow_le_pow_right (by omega) hi
  omega

set_option maxRecDepth 8192 in
/-- Exhaustive byte-level check of the three bit operations. -/
lemma byte_bit_ops :
    ∀ v < 256, ∀ b < 8,
      getBitValue b (setBitValue b v) = true ∧
      getBitValue b (clearBitValue b v) = false ∧
      ∀ i < 8, i ≠ b →
        ((setBitValue b v).testBit i = v.testBit i ∧
         (clearBitValue b v).testBit i = v.testBit i) := by
  decide

/-- C9: for every bit index `b < 8` and register address, with the underlying
byte read and write succeeding (register-file model), `setBit` then `getBit`
on bit `b` yields true, `clearBit` then `getBit` yields false, and every bit
of the register other than `b` is unchanged by either operation. -/
theorem register_bit_ops_c9 :
    ∀ (b registerAddress : Nat) (regs : Regs), b < 8 → (∀ a, regs a < 256) →
      getBit b registerAddress (setBit b registerAddress regs) = true ∧
      getBit b registerAddress (clearBit b registerAddress regs) = false ∧
      ∀ i, i ≠ b →
        ((setBit b registerAddress regs registerAddress).testBit i
            = (regs registerAddress).testBit i ∧
         (clearBit b registerAddress regs registerAddress).testBit i
            = (regs registerAddress).testBit i) := by
  intro b addr regs hb hregs
  have hv := hregs addr
  obtain ⟨h1, h2, h3⟩ := byte_bit_ops (regs addr) hv b hb
  have hset : setBit b addr regs addr = setBitValue b (regs addr) := by
    simp [setBit, setRegister, getRegister, Nat.mod_eq_of_lt (setBitValue_lt b (regs addr))]
  have hclear : clearBit b addr regs addr = clearBitValue b (regs addr) := by
    simp [clearBit, setRegister, getRegister, Nat.mod_eq_of_lt (clearBitValue_lt b (regs addr))]
  refine ⟨?_, ?_, ?_⟩
  · show getBitValue b (setBit b addr regs addr) = true
    rw [hset]; exact h1
  · show getBitValue b (clearBit b addr regs addr) = false
    rw [hclear]; exact h2
  · intro i hi
    rw [hset, hclear]
    rcases Nat.lt_or_ge i 8 with hi8 | hi8
    · exact h3 i hi8 hi
    · rw [testBit_byte_high (setBitValue_lt b (regs addr)) hi8,
        testBit_byte_high (clearBitValue_lt b (regs addr)) hi8,
        testBit_byte_high hv hi8]
      exact ⟨rfl, rfl⟩

/-- Witness for C9: bit 2 of register 0 on the register file constantly 170. -/
theorem register_bit_ops_c9_witness :
    getBit 2 0 (setBit 2 0 (fun _ => 170)) = true :=
  (register_bit_ops_c9 2 0 (fun _ => 170) (by decide) (fun _ => (by decide : (170 : ℕ) < 256))).1

/-- Register address of CTRL2. Modelled from the spec: the register-map header
(`NAU7802.h`) is not among the sources; the spec fixes only which bits of the
control register change, so the concrete address value is immaterial. -/
def NAU7802_CTRL2 : Nat := 2

/-- The CTRL2 byte computed by `NAU7802::setSampleRate`: the rate is clamped
to `0b111`, the CRS bits (6..4) of the previously read CTRL2 byte are cleared
with mask `0b10001111`, and the clamped rate is or-ed in at bit 4. -/
def setSampleRateValue (rate ctrl2 : Nat) : Nat :=
  ((ctrl2 % 256 &&& 0b10001111) ||| (if rate % 256 > 7 then 7 else rate % 256) <<< 4) % 256

/-- `NAU7802::setSampleRate`: read CTRL2, mask in the clamped rate, write the
result back to CTRL2. -/
def setSampleRate (rate : Nat) (regs : Regs) : Regs :=
  setRegister regs NAU7802_CTRL2 (setSampleRateValue rate (getRegister regs NAU7802_CTRL2))

lemma setSampleRateValue_lt (rate ctrl2 : Nat) : setSampleRateValue rate ctrl2 < 256 :=
  Nat.mod_lt _ (by omega)

/-- The computed byte depends on the rate only through its clamp to [0,7]. -/
lemma setSampleRateValue_clamp (rate ctrl2 : Nat) (h : rate < 256) :
    setSampleRateValue rate ctrl2 = setSampleRateValue (min rate 7) ctrl2 := by
  have hc1 : (if rate % 256 > 7 then 7 else rate % 256) = min rate 7 := by
    rw [Nat.mod_eq_of_lt h]; split_ifs <;> omega
  have hc2 : (if min rate 7 % 256 > 7 then 7 else min rate 7 % 256) = min rate 7 := by
    rw [Nat.mod_eq_of_lt (by omega : min rate 7 < 256)]; split_ifs <;> omega
  unfold setSampleRateValue
  rw [hc1, hc2]

set_option maxRecDepth 100000 in
/-- Exhaustive byte-level check of the CTRL2 update for clamped rates: bits
6..4 hold the rate, bits 0..3 and 7 are unchanged. -/
lemma setSampleRateValue_byte :
    ∀ r < 8, ∀ ctrl2 < 256,
      (setSampleRateValue r ctrl2 / 2 ^ 4) % 2 ^ 3 = r ∧
      ∀ i < 8, (i < 4 ∨ i = 7) →
        (setSampleRateValue r ctrl2).testBit i = ctrl2.testBit i := by
  decide

/-- C8: `setSampleRate` clamps the rate to at most 7 and writes CTRL2 with
bits 6..4 equal to the clamped rate and all other bits equal to their
previously read values; in particular input 15 stores rate bits 0b111. -/
theorem setSampleRate_ctrl2_c8 :
    (∀ (rate : Nat) (regs : Regs), rate < 256 → (∀ a, regs a < 256) →
      (setSampleRate rate regs NAU7802_CTRL2 / 2 ^ 4) % 2 ^ 3 = min rate 7 ∧
      ∀ i, i ≠ 4 → i ≠ 5 → i ≠ 6 →
        (setSampleRate rate regs NAU7802_CTRL2).testBit i
          = (regs NAU7802_CTRL2).testBit i) ∧
    ∀ regs : Regs, (∀ a, regs a < 256) →
      (setSampleRate 15 regs NAU7802_CTRL2 / 2 ^ 4) % 2 ^ 3 = 0b111 := by
  have hwrite : ∀ (rate : Nat) (regs : Regs),
      setSampleRate rate regs NAU7802_CTRL2
        = setSampleRateValue rate (regs NAU7802_CTRL2) := by
    intro rate regs
    simp [setSampleRate, setRegister, getRegister,
      Nat.mod_eq_of_lt (setSampleRateValue_lt rate (regs NAU7802_CTRL2))]
  have main : ∀ (rate : Nat) (regs : Regs), rate < 256 → (∀ a, regs a < 256) →
      (setSampleRate rate regs NAU7802_CTRL2 / 2 ^ 4) % 2 ^ 3 = min rate 7 ∧
      ∀ i, i ≠ 4 → i ≠ 5 → i ≠ 6 →
        (setSampleRate rate regs NAU7802_CTRL2).testBit i
          = (regs NAU7802_CTRL2).testBit i := by
    intro rate regs hrate hregs
    have hv := hregs NAU7802_CTRL2
    rw [hwrite, setSampleRateValue_clamp rate _ hrate]
    obtain ⟨hbits, hframe⟩ :=
      setSampleRateValue_byte (min rate 7) (by omega) (regs NAU7802_CTRL2) hv
    refine ⟨hbits, ?_⟩
    intro i h4 h5 h6
    rcases Nat.lt_or_ge i 8 with hi8 | hi8
    · exact hframe i hi8 (by omega)
    · rw [testBit_byte_high (setSampleRateValue_lt _ _) hi8, testBit_byte_high hv hi8]
  refine ⟨main, fun regs hregs => ?_⟩
  have h := (main 15 regs (by omega) hregs).1
  simpa using h

/-- Witness for C8 at rate 15 on the register file constantly 129. -/
theorem setSampleRate_ctrl2_c8_witness :
    (setSampleRate 15 (fun _ => 129) NAU7802_CTRL2 / 2 ^ 4) % 2 ^ 3 = 0b111 :=
  setSampleRate_ctrl2_c8.2 (fun _ => 129) (fun _ => (by decide : (129 : ℕ) < 256))

/-- The calibration status enumeration `NAU7802_Cal_Status`. -/
inductive NAU7802_Cal_Status where
  | CAL_SUCCESS
  | CAL_IN_PROGRESS
  | CAL_FAILURE
deriving DecidableEq

/-- `NAU7802::calAFEStatus`: reads the CTRL2 CALS (calibration-start) bit; if
set, calibration is in progress (the error bit is not consulted); otherwise
reads the CTRL2 CAL_ERROR bit to distinguish failure from success. The two
arguments are the bit values returned by the two fresh `getBit` reads of the
call (nothing is cached between calls). -/
def calAFEStatus (cals calError : Bool) : NAU7802_Cal_Status :=
  if cals then NAU7802_Cal_Status.CAL_IN_PROGRESS
  else if calError then NAU7802_Cal_Status.CAL_FAILURE
  else NAU7802_Cal_Status.CAL_SUCCESS

/-- C5: the status mapping of `calAFEStatus` over every pair of status-bit
values: CALS = 1 gives InProgress regardless of the error bit, CALS = 0 with
CAL_ERROR = 1 gives Failure, and both clear gives Success. The state is
computed from the bits read during the call itself, not from stored state. -/
theorem calAFEStatus_mapping_c5 :
    ∀ cals calError : Bool,
      (cals = true → calAFEStatus cals calError = NAU7802_Cal_Status.CAL_IN_PROGRESS) ∧
      (cals = false → calError = true →
        calAFEStatus cals calError = NAU7802_Cal_Status.CAL_FAILURE) ∧
      (cals = false → calError = false →
        calAFEStatus cals calError = NAU7802_Cal_Status.CAL_SUCCESS) := by
  decide

/-- Witness for C5 at the three reachable bit patterns. -/
theorem calAFEStatus_mapping_c5_witness :
    calAFEStatus true false = NAU7802_Cal_Status.CAL_IN_PROGRESS ∧
    calAFEStatus false true = NAU7802_Cal_Status.CAL_FAILURE ∧
    calAFEStatus false false = NAU7802_Cal_Status.CAL_SUCCESS :=
  ⟨(calAFEStatus_mapping_c5 true false).1 rfl,
   (calAFEStatus_mapping_c5 false true).2.1 rfl rfl,
   (calAFEStatus_mapping_c5 false false).2.2 rfl rfl⟩

/-- One iteration of the `waitForCalibrateAFE` polling loop as observed from
outside: the CALS and CAL_ERROR bits the iteration's `calAFEStatus` call
reads, and the value of `millis() - begin` at that iteration's timeout
check. -/
structure CalPoll where
  cals : Bool
  calError : Bool
  elapsed : Nat

/-- Shallow embedding of `NAU7802::waitForCalibrateAFE`'s loop over a trace of
polls. `while ((cal_ready = calAFEStatus()) == IN_PROGRESS)` exits with the
final status, whose comparison against CAL_SUCCESS is the return value; inside
the loop, a positive `timeout_ms` exceeded by the elapsed time breaks with
`cal_ready` still IN_PROGRESS, so the function returns false. `none` means the
trace ended with the loop still running (the source would keep polling). -/
def waitForCalibrateAFE (timeout_ms : Nat) : List CalPoll → Option Bool
  | [] => none
  | p :: rest =>
    if calAFEStatus p.cals p.calError = NAU7802_Cal_Status.CAL_IN_PROGRESS then
      if timeout_ms > 0 ∧ p.elapsed > timeout_ms then some false
      else waitForCalibrateAFE timeout_ms rest
    else
      some (decide (calAFEStatus p.cals p.calError = NAU7802_Cal_Status.CAL_SUCCESS))

/-- Polls that stay InProgress without tripping the timeout are consumed
without affecting the result. -/
lemma waitForCalibrateAFE_append (timeout_ms : Nat) (post : List CalPoll) :
    ∀ pre : List CalPoll,
      (∀ q ∈ pre, calAFEStatus q.cals q.calError = NAU7802_Cal_Status.CAL_IN_PROGRESS ∧
        ¬(timeout_ms > 0 ∧ q.elapsed > timeout_ms)) →
      waitForCalibrateAFE timeout_ms (pre ++ post) = waitForCalibrateAFE timeout_ms post := by
  intro pre
  induction pre with
  | nil => intro _; rfl
  | cons q rest ih =>
    intro hpre
    obtain ⟨hq, hrest⟩ := List.forall_mem_cons.mp hpre
    show waitForCalibrateAFE timeout_ms (q :: (rest ++ post)) = _
    rw [waitForCalibrateAFE, if_pos hq.1, if_neg hq.2]
    exact ih hrest

/-- C6: `waitForCalibrateAFE` returns true exactly when the polling loop ends
with status Success. (a) If after InProgress polls that never trip the timeout
(vacuous when `timeout_ms = 0`) a poll reads a status other than InProgress,
the return value is that status's comparison with Success — true on Success,
false on Failure. (b) With a positive timeout, an InProgress poll whose
elapsed time exceeds `timeout_ms` makes the call return false. (c) With
`timeout_ms = 0` the loop never times out: while every poll reads InProgress
it keeps polling. -/
theorem waitForCalibrateAFE_c6 :
    (∀ (timeout_ms : Nat) (pre : List CalPoll) (p : CalPoll) (post : List CalPoll),
      (∀ q ∈ pre, calAFEStatus q.cals q.calError = NAU7802_Cal_Status.CAL_IN_PROGRESS ∧
        (timeout_ms = 0 ∨ q.elapsed ≤ timeout_ms)) →
      calAFEStatus p.cals p.calError ≠ NAU7802_Cal_Status.CAL_IN_PROGRESS →
      waitForCalibrateAFE timeout_ms (pre ++ p :: post)
        = some (decide (calAFEStatus p.cals p.calError = NAU7802_Cal_Status.CAL_SUCCESS))) ∧
    (∀ (timeout_ms : Nat) (pre : List CalPoll) (p : CalPoll) (post : List CalPoll),
      0 < timeout_ms →
      (∀ q ∈ pre, calAFEStatus q.cals q.calError = NAU7802_Cal_Status.CAL_IN_PROGRESS ∧
        q.elapsed ≤ timeout_ms) →
      calAFEStatus p.cals p.calError = NAU7802_Cal_Status.CAL_IN_PROGRESS →
      p.elapsed > timeout_ms →
      waitForCalibrateAFE timeout_ms (pre ++ p :: post) = some false) ∧
    (∀ trace : List CalPoll,
      (∀ q ∈ trace, calAFEStatus q.cals q.calError = NAU7802_Cal_Status.CAL_IN_PROGRESS) →
      waitForCalibrateAFE 0 trace = none) := by
  refine ⟨?_, ?_, ?_⟩
  · intro timeout_ms pre p post hpre hp
    rw [waitForCalibrateAFE_append timeout_ms (p :: post) pre ?_]
    · rw [waitForCalibrateAFE, if_neg hp]
    · intro q hq
      obtain ⟨hst, helapsed⟩ := hpre q hq
      exact ⟨hst, by rcases helapsed with h0 | hle <;> omega⟩
  · intro timeout_ms pre p post ht hpre hp helapsed
    rw [waitForCalibrateAFE_append timeout_ms (p :: post) pre ?_]
    · rw [waitForCalibrateAFE, if_pos hp, if_pos ⟨ht, helapsed⟩]
    · intro q hq
      obtain ⟨hst, hle⟩ := hpre q hq
      exact ⟨hst, by omega⟩
  · intro trace htrace
    induction trace with
    | nil => rfl
    | cons q rest ih =>
      obtain ⟨hq, hrest⟩ := List.forall_mem_cons.mp htrace
      rw [waitForCalibrateAFE, if_pos hq, if_neg (by omega)]
      exact ih hrest

/-- Witness for C6: a single poll reading both status bits clear (Success). -/
theorem waitForCalibrateAFE_c6_witness :
    waitForCalibrateAFE 1000 [{ cals := false, calError := false, elapsed := 300 }]
      = some true :=
  waitForCalibrateAFE_c6.1 1000 [] ⟨false, false, 300⟩ []
    (fun q hq => absurd hq (List.not_mem_nil q))
    (by decide)

/-- One iteration of the `getAverage` polling loop as observed from outside:
whether `available()` read the Cycle Ready bit as set, the value `getReading()`
returns if it is consulted, and the value of `millis() - startTime` at the
iteration's timeout check. `getReading` yields values in [-2^23, 2^23-1] and
the loop acquires at most 256 samples, so the C `long` accumulator cannot wrap
and is modelled exactly by `Int`. -/
structure AvgStep where
  avail : Bool
  reading : Int
  elapsed : Nat
deriving DecidableEq

/-- Outcome of `getAverage`: a computed average, the timeout exit, a division
by zero (undefined behavior in C), or the trace ending with the loop still
polling. -/
inductive AvgResult where
  | value (v : Int)
  | timeout
  | divByZero
  | stillRunning
deriving DecidableEq

/-- The caller-visible `int32_t` return value: a computed average returns
itself, the timeout exit returns the sentinel 0, and division by zero or a
non-terminated loop have no defined return value. -/
def AvgResult.returned : AvgResult → Option Int
  | .value v => some v
  | .timeout => some 0
  | .divByZero => none
  | .stillRunning => none

/-- The polling loop of `NAU7802::getAverage` over a trace of iterations.
When a reading is available it is accumulated and the `uint8_t` counter
`samplesAquired` is pre-incremented (wrapping mod 256) and compared for
equality with `averageAmount`; on equality the loop breaks and the source
runs `total /= averageAmount` (division by zero when `averageAmount` is 0,
truncation toward zero otherwise, i.e. `Int.tdiv`). Only if the loop did not
break is the `millis() - startTime > 1000` timeout checked, on every
iteration, returning 0. -/
def getAverageLoop (averageAmount : Nat) : List AvgStep → Int → Nat → AvgResult
  | [], _, _ => .stillRunning
  | s :: rest, total, samplesAquired =>
    if s.avail then
      if (samplesAquired + 1) % 256 = averageAmount then
        if averageAmount = 0 then .divByZero
        else .value (Int.tdiv (total + s.reading) averageAmount)
      else if s.elapsed > 1000 then .timeout
      else getAverageLoop averageAmount rest (total + s.reading) ((samplesAquired + 1) % 256)
    else if s.elapsed > 1000 then .timeout
    else getAverageLoop averageAmount rest total samplesAquired

/-- `NAU7802::getAverage`: the loop starting from `total = 0` and
`samplesAquired = 0`; the `uint8_t` parameter is reduced mod 256. -/
def getAverage (averageAmount : Nat) (trace : List AvgStep) : AvgResult :=
  getAverageLoop (averageAmount % 256) trace 0 0

/-- Number of iterations in a trace fragment whose reading is available. -/
def countReady (trace : List AvgStep) : Nat :=
  (trace.filter (·.avail)).length

/-- Sum of the readings acquired over a trace fragment. -/
def sumReady (trace : List AvgStep) : Int :=
  ((trace.filter (·.avail)).map (·.reading)).sum

/-- Iterations that neither reach the sample target nor trip the timeout are
consumed, accumulating their ready readings into the running total. -/
lemma getAverageLoop_append (averageAmount : Nat) (post : List AvgStep) :
    ∀ (pre : List AvgStep) (total : Int) (samples : Nat),
      (∀ s ∈ pre, s.elapsed ≤ 1000) →
      samples + countReady pre ≤ 255 →
      (∀ k, samples < k → k ≤ samples + countReady pre → k ≠ averageAmount) →
      getAverageLoop averageAmount (pre ++ post) total samples
        = getAverageLoop averageAmount post (total + sumReady pre) (samples + countReady pre) := by
  intro pre
  induction pre with
  | nil =>
    intro total samples _ _ _
    simp [countReady, sumReady]
  | cons s rest ih =>
    intro total samples hel hcap hne
    obtain ⟨hs, hrest⟩ := List.forall_mem_cons.mp hel
    by_cases hav : s.avail = true
    · have hcount : countReady (s :: rest) = countReady rest + 1 := by
        simp [countReady, List.filter_cons, hav]
      have hsum : sumReady (s :: rest) = s.reading + sumReady rest := by
        simp [sumReady, List.filter_cons, hav]
      rw [hcount] at hcap hne
      have hsamp : (samples + 1) % 256 = samples + 1 := Nat.mod_eq_of_lt (by omega)
      show getAverageLoop averageAmount (s :: (rest ++ post)) total samples = _
      rw [getAverageLoop, if_pos hav, if_neg ?hbreak, if_neg (by omega : ¬s.elapsed > 1000),
        hsamp, ih (total + s.reading) (samples + 1) hrest (by omega) ?hne2]
      · rw [hcount, hsum]
        have e1 : total + s.reading + sumReady rest = total + (s.reading + sumReady rest) := by
          ring
        have e2 : samples + 1 + countReady rest = samples + (countReady rest + 1) := by
          omega
        rw [e1, e2]
      case hbreak =>
        rw [hsamp]
        exact hne (samples + 1) (by omega) (by omega)
      case hne2 =>
        intro k hk1 hk2
        exact hne k (by omega) (by omega)
    · have hcount : countReady (s :: rest) = countReady rest := by
        simp [countReady, List.filter_cons, hav]
      have hsum : sumReady (s :: rest) = sumReady rest := by
        simp [sumReady, List.filter_cons, hav]
      rw [hcount] at hcap hne
      show getAverageLoop averageAmount (s :: (rest ++ post)) total samples = _
      rw [getAverageLoop, if_neg hav, if_neg (by omega : ¬s.elapsed > 1000),
        ih total samples hrest (by omega) hne, hcount, hsum]

/-- C3: for 1 ≤ averageAmount ≤ 255 (the `uint8_t` range): (a) if the
`averageAmount`-th ready reading arrives while every earlier iteration's
timeout check saw at most 1000ms elapsed, `getAverage` returns the
truncated-toward-zero quotient of the sum of the acquired readings by
`averageAmount`; (b) if an iteration sees more than 1000ms elapsed before
`averageAmount` readings were acquired, the call returns 0 no matter how many
samples were already accumulated. -/
theorem getAverage_quotient_c3 :
    (∀ (averageAmount : Nat) (pre : List AvgStep) (last : AvgStep) (post : List AvgStep),
      1 ≤ averageAmount → averageAmount ≤ 255 →
      (∀ s ∈ pre, s.elapsed ≤ 1000) →
      last.avail = true →
      countReady pre + 1 = averageAmount →
      getAverage averageAmount (pre ++ last :: post)
        = AvgResult.value (Int.tdiv (sumReady pre + last.reading) averageAmount)) ∧
    (∀ (averageAmount : Nat) (pre : List AvgStep) (bad : AvgStep) (post : List AvgStep),
      1 ≤ averageAmount → averageAmount ≤ 255 →
      (∀ s ∈ pre, s.elapsed ≤ 1000) →
      bad.elapsed > 1000 →
      countReady pre + (if bad.avail then 1 else 0) < averageAmount →
      (getAverage averageAmount (pre ++ bad :: post)).returned = some 0) := by
  constructor
  · intro amt pre last post h1 h255 hpre hlast hcount
    unfold getAverage
    rw [Nat.mod_eq_of_lt (by omega : amt < 256),
      getAverageLoop_append amt (last :: post) pre 0 0 hpre (by omega)
        (fun k hk1 hk2 => by omega)]
    rw [getAverageLoop, if_pos hlast,
      if_pos (by rw [Nat.mod_eq_of_lt (by omega : 0 + countReady pre + 1 < 256)]; omega),
      if_neg (by omega : ¬amt = 0)]
    have e : (0 : Int) + sumReady pre + last.reading = sumReady pre + last.reading := by ring
    rw [e]
  · intro amt pre bad post h1 h255 hpre hbad hlt
    unfold getAverage
    rw [Nat.mod_eq_of_lt (by omega : amt < 256),
      getAverageLoop_append amt (bad :: post) pre 0 0 hpre
        (by by_cases h : bad.avail = true <;> simp [h] at hlt <;> omega)
        (fun k hk1 hk2 => by by_cases h : bad.avail = true <;> simp [h] at hlt <;> omega)]
    by_cases hav : bad.avail = true
    · rw [if_pos hav] at hlt
      rw [getAverageLoop, if_pos hav,
        if_neg (by rw [Nat.mod_eq_of_lt (by omega : 0 + countReady pre + 1 < 256)]; omega),
        if_pos hbad]
      rfl
    · rw [if_neg hav] at hlt
      rw [getAverageLoop, if_neg hav, if_pos hbad]
      rfl

/-- Witness for C3: two ready readings (10 and 11) acquired with a skipped
iteration in between; the average of 21 over 2 truncates to 10. -/
theorem getAverage_quotient_c3_witness :
    getAverage 2 [⟨true, 10, 0⟩, ⟨false, 99, 1⟩, ⟨true, 11, 5⟩] = AvgResult.value 10 :=
  getAverage_quotient_c3.1 2 [⟨true, 10, 0⟩, ⟨false, 99, 1⟩] ⟨true, 11, 5⟩ []
    (by decide) (by decide) (by decide) rfl (by decide)

/-- C10: `getAverage 0` is unguarded. (a) The equality test
`(samplesAquired + 1) % 256 == 0` first succeeds at the 256th acquired
reading, where the source divides the accumulated total by zero (undefined
behavior); (b) if fewer than 256 readings become ready before an iteration
sees more than 1000ms elapsed, the call instead returns the timeout sentinel
0. The precondition `averageAmount ≥ 1` is what excludes the division by
zero. -/
theorem getAverage_zero_c10 :
    (∀ (pre : List AvgStep) (last : AvgStep) (post : List AvgStep),
      (∀ s ∈ pre, s.elapsed ≤ 1000) →
      last.avail = true →
      countReady pre = 255 →
      getAverage 0 (pre ++ last :: post) = AvgResult.divByZero) ∧
    (∀ (pre : List AvgStep) (bad : AvgStep) (post : List AvgStep),
      (∀ s ∈ pre, s.elapsed ≤ 1000) →
      bad.elapsed > 1000 →
      countReady pre + (if bad.avail then 1 else 0) < 256 →
      (getAverage 0 (pre ++ bad :: post)).returned = some 0) := by
  constructor
  · intro pre last post hpre hlast hcount
    unfold getAverage
    rw [Nat.mod_eq_of_lt (by omega : 0 < 256),
      getAverageLoop_append 0 (last :: post) pre 0 0 hpre (by omega)
        (fun k hk1 hk2 => by omega)]
    rw [getAverageLoop, if_pos hlast,
      if_pos (by rw [hcount]), if_pos rfl]
  · intro pre bad post hpre hbad hlt
    unfold getAverage
    rw [Nat.mod_eq_of_lt (by omega : 0 < 256),
      getAverageLoop_append 0 (bad :: post) pre 0 0 hpre
        (by by_cases h : bad.avail = true <;> simp [h] at hlt <;> omega)
        (fun k hk1 hk2 => by omega)]
    by_cases hav : bad.avail = true
    · rw [if_pos hav] at hlt
      rw [getAverageLoop, if_pos hav,
        if_neg (by rw [Nat.mod_eq_of_lt (by omega : 0 + countReady pre + 1 < 256)]; omega),
        if_pos hbad]
      rfl
    · rw [getAverageLoop, if_neg hav, if_pos hbad]
      rfl

set_option maxRecDepth 100000 in
/-- Witness for C10: 255 ready readings followed by a 256th; the counter
wraps to 0 and the division by zero is reached. -/
theorem getAverage_zero_c10_witness :
    getAverage 0 (List.replicate 255 (⟨true, 1, 0⟩ : AvgStep) ++ [⟨true, 1, 0⟩])
      = AvgResult.divByZero :=
  getAverage_zero_c10.1 (List.replicate 255 ⟨true, 1, 0⟩) ⟨true, 1, 0⟩ []
    (by decide) rfl (by decide)

/-- One setup step of `begin`: `result &= step()`. `&=` is a bitwise and, so
the step call is evaluated regardless of the accumulated result; the step
consumes the next scripted outcome. `none` signals that fewer outcomes were
scripted than step calls executed. -/
def beginStep : Option (Bool × List Bool) → Option (Bool × List Bool)
  | some (acc, r :: rest) => some (acc && r, rest)
  | _ => none

/-- Shallow embedding of `NAU7802::begin` past a successful connection (file
descriptor opened, address selected, device acknowledged within the two
probes). `steps` scripts the outcomes of the successive setup calls in source
order: reset, powerUp, setLDO, setGain, setSampleRate, the
`setRegister(NAU7802_ADC, 0x30)` chopper-clock write, the
`setBit(NAU7802_PGA_PWR_PGA_CAP_EN, NAU7802_PGA_PWR)` decoupling-capacitor
write, and calibrateAFE. The result pairs the accumulated boolean with the
unconsumed remainder of the script. -/
def begin (doInit : Bool) (steps : List Bool) : Option (Bool × List Bool) :=
  if doInit then
    beginStep (beginStep (beginStep (beginStep (beginStep (beginStep (beginStep (beginStep
      (some (true, steps)))))))))
  else
    some (true, steps)

/-- C7: after a successful connection, `begin` with the init flag set runs exactly
the eight setup steps in order — it consumes the first eight scripted
outcomes whatever their values, so no failure skips a later step — and
returns the conjunction of all eight results; conversely a script of fewer
than eight outcomes is exhausted, confirming every step executes. -/
theorem begin_all_steps_c7 :
    (∀ (r1 r2 r3 r4 r5 r6 r7 r8 : Bool) (rest : List Bool),
      begin true (r1 :: r2 :: r3 :: r4 :: r5 :: r6 :: r7 :: r8 :: rest)
        = some (r1 && r2 && r3 && r4 && r5 && r6 && r7 && r8, rest)) ∧
    (∀ steps : List Bool, steps.length < 8 → begin true steps = none) := by
  constructor
  · intro r1 r2 r3 r4 r5 r6 r7 r8 rest
    simp [begin, beginStep, Bool.and_assoc]
  · intro steps h
    rcases steps with _ | ⟨a, _ | ⟨b, _ | ⟨c, _ | ⟨d, _ | ⟨e, _ | ⟨f, _ | ⟨g, _ | ⟨h8, rest⟩⟩⟩⟩⟩⟩⟩⟩
    · rfl
    · rfl
    · rfl
    · rfl
    · rfl
    · rfl
    · rfl
    · rfl
    · exfalso
      simp [List.length_cons] at h
      omega

/-- Witness for C7: a three-outcome script is exhausted before the eight
steps complete. -/
theorem begin_all_steps_c7_witness :
    begin true [true, false, true] = none :=
  begin_all_steps_c7.2 [true, false, true] (by decide)

/-- Shallow embedding of `NAU7802::getWeight`. `onScale` is the `int32_t`
average returned by `getAverage(samplesToTake)`, `zeroOffset` the stored
`_zeroOffset`, and `calibrationFactor` the stored `_calibrationFactor`. The
two nested ifs mirror the source's clamp. The conversion to `float` and the
float division are modelled exactly over `ℚ`; at the claim's instances
(ZeroOffset 100, CalibrationFactor 2.0, average 90) every float operation is
exact, so the rational model coincides with the float computation. -/
def getWeight (allowNegativeWeights : Bool) (onScale zeroOffset : Int)
    (calibrationFactor : ℚ) : ℚ :=
  (((if allowNegativeWeights = false then
       if onScale < zeroOffset then zeroOffset else onScale
     else onScale) - zeroOffset : Int) : ℚ) / calibrationFactor

/-- C4: `getWeight` returns `(a - ZeroOffset) / CalibrationFactor` where `a`
is the average, except that with negative weights disallowed an average below
the zero offset is replaced by the zero offset; with ZeroOffset 100 and
CalibrationFactor 2.0, an average of 90 yields 0 when negatives are
disallowed and -5 when they are allowed. -/
theorem getWeight_formula_c4 :
    (∀ (allowNegativeWeights : Bool) (a zeroOffset : Int) (calibrationFactor : ℚ),
      getWeight allowNegativeWeights a zeroOffset calibrationFactor
        = (((if allowNegativeWeights = false ∧ a < zeroOffset then zeroOffset else a)
            - zeroOffset : Int) : ℚ) / calibrationFactor) ∧
    getWeight false 90 100 2 = 0 ∧
    getWeight true 90 100 2 = -5 := by
  refine ⟨?_, by norm_num [getWeight], by norm_num [getWeight]⟩
  intro an a z c
  have h : (if an = false then (if a < z then z else a) else a)
      = (if an = false ∧ a < z then z else a) := by
    by_cases h1 : an = false <;> by_cases h2 : a < z <;> simp [h1, h2]
  simp only [getWeight, h]
